import Mathlib

/-
Verification of the storyboard state & persistence model (dokbun2/storyboard).

The embedding models the core logic of src/App.tsx and
src/components/InputSection.tsx:

* the Markdown-fence pre-processing and JSON ingestion of handleVisualize
  (App.tsx lines 51-94), with the JSON text parser modelled after the host
  JSON.parse (objects, arrays, strings with escapes, integer numbers,
  booleans and null; floating-point numbers are outside the model's scope);
* the backup validation and restore path of handleRestoreFile
  (InputSection.tsx lines 129-162) and handleRestoreData (App.tsx 113-125);
* the session state and its mutations: handleReset, the guarded
  navigation to the output view, handleImagesUpdate / handleVideosUpdate
  (App.tsx 102-110), and the credential persistence handleSetApiKey
  (App.tsx 40-49) over a key-value store modelling window.localStorage.

Strings are modelled as List Char where the code manipulates raw text and
as String inside parsed JSON values.  JavaScript truthiness is modelled by
jsTruthy.  Error messages and toasts are modelled abstractly (ParseErr,
Notice): their display text is presentation, not state logic.
-/

/-- One backtick character, written via an escape. -/
def tickChar : Char := '\x60'

/-- The three-backtick sequence that the code searches for with
rawInput.includes in App.tsx line 58. -/
def fence3 : List Char := ['\x60', '\x60', '\x60']

/-- The literal sequence removed by the first replace call
(regex matching a backtick fence followed by the word json) in App.tsx
line 59. -/
def fenceJson : List Char := ['\x60', '\x60', '\x60', 'j', 's', 'o', 'n']

/-- Boolean prefix test on character lists (used to relate the
pattern-matching deletion functions to symbolic reasoning). -/
def isPre : List Char → List Char → Bool
  | [], _ => true
  | _ :: _, [] => false
  | a :: as, b :: bs => if a = b then isPre as bs else false

/-- Single left-to-right pass deleting every occurrence of the
backtick-backtick-backtick-json sequence, exactly as the global regex
replace in App.tsx line 59: at each position, if the pattern matches it is
removed and scanning continues after it, otherwise the character is kept. -/
def delJson : List Char → List Char
  | '\x60' :: '\x60' :: '\x60' :: 'j' :: 's' :: 'o' :: 'n' :: rest => delJson rest
  | c :: rest => c :: delJson rest
  | [] => []

/-- Single left-to-right pass deleting every occurrence of three
consecutive backticks, exactly as the second global regex replace in
App.tsx line 59. -/
def delTicks : List Char → List Char
  | '\x60' :: '\x60' :: '\x60' :: rest => delTicks rest
  | c :: rest => c :: delTicks rest
  | [] => []

/-- Substring test for three consecutive backticks, modelling
rawInput.includes in App.tsx line 58. -/
def hasFence : List Char → Bool
  | '\x60' :: '\x60' :: '\x60' :: _ => true
  | _ :: rest => hasFence rest
  | [] => false

/-- The Markdown-fence stripping step of handleVisualize (App.tsx
lines 57-60): when the raw input contains three consecutive backticks,
first delete every json-fence opener, then every remaining triple
backtick; otherwise the text is passed through unchanged. -/
def stripFences (s : List Char) : List Char :=
  if hasFence s then delTicks (delJson s) else s

/-- Wrapping a text in a Markdown JSON code fence: the json fence opener
before and a plain fence after. -/
def wrapFence (t : List Char) : List Char := fenceJson ++ (t ++ fence3)

/-- JSON values as produced by the host JSON.parse.  Numbers are
modelled as integers; duplicate object keys are collapsed at parse time
(last value wins, first position kept), as JavaScript does. -/
inductive Json where
  | null
  | bool (b : Bool)
  | num (n : Int)
  | str (s : String)
  | arr (elems : List Json)
  | obj (fields : List (String × Json))
deriving Repr

/-- Key lookup in a parsed JSON object (JavaScript property read). -/
def lookupStr : List (String × Json) → String → Option Json
  | [], _ => none
  | (k0, v0) :: t, k => if k0 = k then some v0 else lookupStr t k

/-- Property read: a field of an object, undefined (none) otherwise,
matching JavaScript member access on a parsed JSON value. -/
def getField (v : Json) (k : String) : Option Json :=
  match v with
  | Json.obj fs => lookupStr fs k
  | _ => none

/-- Insert-or-overwrite for object fields: an existing key keeps its
position and gets the new value, a new key is appended, as JavaScript
property assignment does. -/
def objInsert : List (String × Json) → String → Json → List (String × Json)
  | [], k, v => [(k, v)]
  | (k0, v0) :: t, k, v =>
    if k0 = k then (k0, v) :: t else (k0, v0) :: objInsert t k v

/-- Property assignment on a parsed JSON value.  On a non-object the
assignment has no observable effect in the modelled paths (the code only
assigns after the object shape has been established). -/
def setField (v : Json) (k : String) (x : Json) : Json :=
  match v with
  | Json.obj fs => Json.obj (objInsert fs k x)
  | _ => v

/-- JavaScript truthiness of a JSON value: null, false, zero and the
empty string are falsy; every array and object is truthy. -/
def jsTruthy : Json → Bool
  | Json.null => false
  | Json.bool b => b
  | Json.num n => if n = 0 then false else true
  | Json.str s => if s = "" then false else true
  | Json.arr _ => true
  | Json.obj _ => true

/-- Truthiness of a possibly-absent value: an absent property
(undefined) is falsy. -/
def jsTruthyOpt (o : Option Json) : Bool :=
  match o with
  | some j => jsTruthy j
  | none => false

/-- JavaScript logical-or with a default, as in the expression reading
backupData.generatedImages with an object-literal fallback
(InputSection.tsx lines 146-147). -/
def jsOrElse (o : Option Json) (dflt : Json) : Json :=
  match o with
  | some v => if jsTruthy v then v else dflt
  | none => dflt

/-- Skip JSON whitespace. -/
def skipWs : List Char → List Char
  | c :: rest =>
    if c = ' ' ∨ c = '\t' ∨ c = '\n' ∨ c = '\r' then skipWs rest else c :: rest
  | [] => []

/-- Hexadecimal digit value for unicode escapes. -/
def hexVal (c : Char) : Option Nat :=
  if '0' ≤ c ∧ c ≤ '9' then some (c.toNat - 48)
  else if 'a' ≤ c ∧ c ≤ 'f' then some (c.toNat - 87)
  else if 'A' ≤ c ∧ c ≤ 'F' then some (c.toNat - 55)
  else none

/-- Parse the body of a JSON string after the opening quote, returning
the decoded characters and the rest of the input.  Handles the standard
escapes; raw control characters are rejected as in strict JSON. -/
def parseStrBody : Nat → List Char → Option (List Char × List Char)
  | 0, _ => none
  | _ + 1, [] => none
  | fuel + 1, c :: rest =>
    if c = '"' then some ([], rest)
    else if c = '\\' then
      match rest with
      | [] => none
      | e :: rest2 =>
        if e = '"' ∨ e = '\\' ∨ e = '/' then
          (parseStrBody fuel rest2).map (fun p => (e :: p.1, p.2))
        else if e = 'n' then
          (parseStrBody fuel rest2).map (fun p => ('\n' :: p.1, p.2))
        else if e = 't' then
          (parseStrBody fuel rest2).map (fun p => ('\t' :: p.1, p.2))
        else if e = 'r' then
          (parseStrBody fuel rest2).map (fun p => ('\r' :: p.1, p.2))
        else if e = 'b' then
          (parseStrBody fuel rest2).map (fun p => ('\x08' :: p.1, p.2))
        else if e = 'f' then
          (parseStrBody fuel rest2).map (fun p => ('\x0c' :: p.1, p.2))
        else if e = 'u' then
          match rest2 with
          | h1 :: h2 :: h3 :: h4 :: rest3 =>
            match hexVal h1, hexVal h2, hexVal h3, hexVal h4 with
            | some a, some b, some c3, some d =>
              (parseStrBody fuel rest3).map
                (fun p => (Char.ofNat (a * 4096 + b * 256 + c3 * 16 + d) :: p.1, p.2))
            | _, _, _, _ => none
          | _ => none
        else none
    else if c.toNat < 32 then none
    else (parseStrBody fuel rest).map (fun p => (c :: p.1, p.2))

/-- Digit test. -/
def isDigitCh (c : Char) : Bool := '0' ≤ c ∧ c ≤ '9'

/-- Take a run of decimal digits. -/
def takeDigits : List Char → (List Char × List Char)
  | [] => ([], [])
  | c :: rest =>
    if isDigitCh c then
      let p := takeDigits rest
      (c :: p.1, p.2)
    else ([], c :: rest)

/-- Decimal digits to a natural number. -/
def digitsToNat (acc : Nat) : List Char → Nat
  | [] => acc
  | c :: rest => digitsToNat (acc * 10 + (c.toNat - 48)) rest

/-- Parse a JSON integer literal (optional minus sign, no leading zeros
except the single digit zero).  Fractional or exponent forms are outside
the scope of the model and are not accepted. -/
def parseNum (s : List Char) : Option (Int × List Char) :=
  let (neg, s1) :=
    match s with
    | '-' :: rest => (true, rest)
    | _ => (false, s)
  match takeDigits s1 with
  | ([], _) => none
  | (d :: ds, rest) =>
    if d = '0' ∧ ds ≠ [] then none
    else
      match rest with
      | '.' :: _ => none
      | 'e' :: _ => none
      | 'E' :: _ => none
      | _ =>
        let n : Int := Int.ofNat (digitsToNat 0 (d :: ds))
        some (if neg then -n else n, rest)

mutual

/-- Recursive-descent JSON value parser (fuelled; the fuel is only a
termination device and is always ample for the input length). -/
def parseVal : Nat → List Char → Option (Json × List Char)
  | 0, _ => none
  | fuel + 1, s =>
    match skipWs s with
    | [] => none
    | c :: rest =>
      if c = '"' then
        (parseStrBody (rest.length + 1) rest).map
          (fun p => (Json.str (String.mk p.1), p.2))
      else if c = '\x7b' then
        match skipWs rest with
        | '\x7d' :: rest2 => some (Json.obj [], rest2)
        | _ => parseFields fuel rest []
      else if c = '[' then
        match skipWs rest with
        | ']' :: rest2 => some (Json.arr [], rest2)
        | _ => parseElems fuel rest []
      else if c = 't' then
        if isPre ['r', 'u', 'e'] rest then some (Json.bool true, rest.drop 3)
        else none
      else if c = 'f' then
        if isPre ['a', 'l', 's', 'e'] rest then some (Json.bool false, rest.drop 4)
        else none
      else if c = 'n' then
        if isPre ['u', 'l', 'l'] rest then some (Json.null, rest.drop 3)
        else none
      else if c = '-' ∨ isDigitCh c then
        (parseNum (c :: rest)).map (fun p => (Json.num p.1, p.2))
      else none

/-- Parse the members of a JSON object after the opening brace (or a
comma), accumulating fields with last-value-wins duplicate handling. -/
def parseFields : Nat → List Char → List (String × Json) →
    Option (Json × List Char)
  | 0, _, _ => none
  | fuel + 1, s, acc =>
    match skipWs s with
    | q :: rest =>
      if q = '"' then
        match parseStrBody (rest.length + 1) rest with
        | some (keyChars, r1) =>
          match skipWs r1 with
          | colon :: r2 =>
            if colon = ':' then
              match parseVal fuel r2 with
              | some (v, r3) =>
                let acc2 := objInsert acc (String.mk keyChars) v
                match skipWs r3 with
                | d :: r4 =>
                  if d = ',' then parseFields fuel r4 acc2
                  else if d = '\x7d' then some (Json.obj acc2, r4)
                  else none
                | [] => none
              | none => none
            else none
          | [] => none
        | none => none
      else none
    | [] => none

/-- Parse the elements of a JSON array after the opening bracket (or a
comma). -/
def parseElems : Nat → List Char → List Json → Option (Json × List Char)
  | 0, _, _ => none
  | fuel + 1, s, acc =>
    match parseVal fuel s with
    | some (v, r1) =>
      match skipWs r1 with
      | d :: r2 =>
        if d = ',' then parseElems fuel r2 (acc ++ [v])
        else if d = ']' then some (Json.arr (acc ++ [v]), r2)
        else none
      | [] => none
    | none => none

end

/-- Model of the host JSON.parse on raw text: parse one value, allow
surrounding whitespace, and require the whole input to be consumed. -/
def Json.parse (s : List Char) : Option Json :=
  match parseVal (s.length + 1) s with
  | some (v, r) =>
    match skipWs r with
    | [] => some v
    | _ :: _ => none
  | none => none

/-- Typed parse failures of the ingestion path (App.tsx lines 62-68):
a JSON syntax error, or a structurally invalid document without a
storyboard_sequence array. -/
inductive ParseErr where
  | syntaxError
  | missingSequence
deriving Repr, DecidableEq

/-- Default project meta synthesized by App.tsx lines 72-75 when the
parsed value has no truthy project_meta. -/
def defaultMeta : Json :=
  Json.obj [("title", Json.str "제목 없는 프로젝트"),
            ("logline", Json.str "로그라인이 제공되지 않았습니다.")]

/-- Test for a present array-valued field, as the conjunction of the two
negated conditions in App.tsx line 66 (the property is truthy only when
present, and Array.isArray holds only for arrays, so together the check
passes exactly when the field is present and an array). -/
def isArrOpt : Option Json → Bool
  | some (Json.arr _) => true
  | _ => false

/-- The project_meta defaulting step of App.tsx lines 70-76: when the
parsed value has no truthy project_meta, assign the default. -/
def withDefaultMeta (parsed : Json) : Json :=
  if jsTruthyOpt (getField parsed "project_meta") then parsed
  else setField parsed "project_meta" defaultMeta

/-- The reference-image attachment step of App.tsx lines 79-81: assign
reference_image only when a truthy reference image was supplied. -/
def attachRef (doc : Json) (refImage : Option Json) : Json :=
  match refImage with
  | some r => if jsTruthy r then setField doc "reference_image" r else doc
  | none => doc

/-- The post-parse steps of handleVisualize (App.tsx lines 66-81):
require storyboard_sequence to be present and an array, then default
project_meta and attach the reference image. -/
def pipelineStep2 (parsed : Json) (refImage : Option Json) :
    Except ParseErr Json :=
  if isArrOpt (getField parsed "storyboard_sequence") then
    Except.ok (attachRef (withDefaultMeta parsed) refImage)
  else Except.error ParseErr.missingSequence

/-- The ingestion pipeline of handleVisualize (App.tsx lines 51-86),
up to and including the construction of the document that is stored on
success: strip Markdown fences, parse, then validate and normalize. -/
def parsePipeline (input : List Char) (refImage : Option Json) :
    Except ParseErr Json :=
  match Json.parse (stripFences input) with
  | none => Except.error ParseErr.syntaxError
  | some parsed => pipelineStep2 parsed refImage

/-- The backup validation and extraction of handleRestoreFile
(InputSection.tsx lines 136-148): parse the file content, require a
truthy data field whose storyboard_sequence property is truthy (no
array check is performed on this path), and default the two media maps
with a JavaScript logical-or when absent or falsy. -/
def backupStep2 (backupData : Json) : Option (Json × Json × Json) :=
  match getField backupData "data" with
  | some d =>
    if jsTruthy d then
      if jsTruthyOpt (getField d "storyboard_sequence") then
        some (d,
              jsOrElse (getField backupData "generatedImages") (Json.obj []),
              jsOrElse (getField backupData "videoUrls") (Json.obj []))
      else none
    else none
  | none => none

/-- See the doc comment above backupStep2; this adds the JSON.parse step
of InputSection.tsx line 137. -/
def deserializeBackup (content : List Char) : Option (Json × Json × Json) :=
  match Json.parse content with
  | none => none
  | some backupData => backupStep2 backupData

/-- The two views of the App state machine. -/
inductive ViewMode where
  | inputView
  | outputView
deriving Repr, DecidableEq

/-- Abstract notification markers for the toast channel; the display
text is presentation and not modelled. -/
inductive Notice where
  | visualizeSuccess
  | visualizeFailure
  | restoreSuccess
  | restoreFailure
deriving Repr, DecidableEq

/-- The tab-lifetime session state held by the App component
(App.tsx lines 9-33): current view, held document, last error, the
credential, the raw input text, the reference image slot, the two media
registries, and the toast channel. -/
structure SessionState where
  viewMode : ViewMode
  data : Option Json
  error : Option ParseErr
  userApiKey : String
  jsonInput : List Char
  refImage : Option Json
  generatedImages : Json
  videoUrls : Json
  toast : Option Notice
deriving Repr

/-- The initial session state: input view, nothing held. -/
def emptySession : SessionState :=
  { viewMode := ViewMode.inputView
    data := none
    error := none
    userApiKey := ""
    jsonInput := []
    refImage := none
    generatedImages := Json.obj []
    videoUrls := Json.obj []
    toast := none }

/-- handleVisualize (App.tsx lines 51-94) as a state transformer: clear
the error, run the pipeline; on success store the document, switch to the
output view and toast success; on failure record the error and toast
failure, touching nothing else. -/
def handleVisualize (s : SessionState) (input : List Char)
    (refImage : Option Json) : SessionState :=
  match parsePipeline input refImage with
  | Except.ok d =>
    { s with error := none, data := some d, viewMode := ViewMode.outputView,
             toast := some Notice.visualizeSuccess }
  | Except.error e =>
    { s with error := some e, toast := some Notice.visualizeFailure }

/-- handleReset (App.tsx lines 96-100): back to the input view and clear
the error; document, media registries, raw input and reference image are
deliberately kept. -/
def handleReset (s : SessionState) : SessionState :=
  { s with viewMode := ViewMode.inputView, error := none }

/-- The guarded navigation to the output view (App.tsx lines 142-143
with the hasData guard of InputSection.tsx lines 178-201): a no-op when
no document is held. -/
def goToOutput (s : SessionState) : SessionState :=
  if s.data.isSome then { s with viewMode := ViewMode.outputView } else s

/-- handleImagesUpdate (App.tsx lines 102-105): the incoming mapping
replaces the image registry wholesale. -/
def handleImagesUpdate (s : SessionState) (images : Json) : SessionState :=
  { s with generatedImages := images }

/-- handleVideosUpdate (App.tsx lines 107-110): the incoming mapping
replaces the video registry wholesale. -/
def handleVideosUpdate (s : SessionState) (videos : Json) : SessionState :=
  { s with videoUrls := videos }

/-- The conditional reference-image overwrite of handleRestoreData
(App.tsx lines 119-121): the slot is overwritten only when the restored
document's reference_image field is truthy, otherwise kept. -/
def restoredRefImage (s : SessionState) (d : Json) : Option Json :=
  match getField d "reference_image" with
  | some r => if jsTruthy r then some r else s.refImage
  | none => s.refImage

/-- See the doc comment above restoredRefImage; handleRestoreData
(App.tsx lines 113-125) replaces the document and both media registries,
conditionally overwrites the reference image slot, and navigates to the
output view. -/
def handleRestoreData (s : SessionState) (d images videos : Json) :
    SessionState :=
  { s with data := some d, generatedImages := images, videoUrls := videos,
           refImage := restoredRefImage s d,
           viewMode := ViewMode.outputView }

/-- handleRestoreFile (InputSection.tsx lines 129-162) after the file
content has been read: on a valid backup delegate to handleRestoreData
and toast success; on any failure only toast, leaving the state as it
was. -/
def handleRestoreFile (s : SessionState) (content : List Char) :
    SessionState :=
  match deserializeBackup content with
  | some (d, images, videos) =>
    { handleRestoreData s d images videos with
        toast := some Notice.restoreSuccess }
  | none => { s with toast := some Notice.restoreFailure }

/-- The browser's per-origin key-value store (window.localStorage),
modelled as an association list. -/
abbrev Storage := List (String × String)

/-- localStorage.getItem. -/
def getItem : Storage → String → Option String
  | [], _ => none
  | (k0, v0) :: t, k => if k0 = k then some v0 else getItem t k

/-- localStorage.setItem. -/
def setItem : Storage → String → String → Storage
  | [], k, v => [(k, v)]
  | (k0, v0) :: t, k, v =>
    if k0 = k then (k0, v) :: t else (k0, v0) :: setItem t k v

/-- localStorage.removeItem. -/
def removeItem : Storage → String → Storage
  | [], _ => []
  | (k0, v0) :: t, k =>
    if k0 = k then removeItem t k else (k0, v0) :: removeItem t k

/-- The fixed persistence key for the credential (App.tsx line 15). -/
def geminiKey : String := "gemini_api_key"

/-- handleSetApiKey (App.tsx lines 40-49): store the new credential in
session state, and persist it under the fixed key when truthy
(non-empty) or remove the entry entirely when empty. -/
def handleSetApiKey (s : SessionState) (st : Storage) (k : String) :
    SessionState × Storage :=
  ({ s with userApiKey := k },
   if k = "" then removeItem st geminiKey else setItem st geminiKey k)

/-- The initial credential read (App.tsx lines 12-18):
localStorage.getItem with a JavaScript logical-or fallback to the empty
string. -/
def initialApiKey (st : Storage) : String :=
  match getItem st geminiKey with
  | some v => if v = "" then "" else v
  | none => ""

/-! ### Concrete inputs used by the example-level theorems -/

/-- A valid backup file content. -/
def c2okContent : List Char :=
  "\x7b\"data\":\x7b\"storyboard_sequence\":[\"w2\"]\x7d\x7d".toList

/-- The parsed value of c2okContent. -/
def c2okVal : Json :=
  Json.obj [("data",
    Json.obj [("storyboard_sequence", Json.arr [Json.str "w2"])])]

/-- A backup whose storyboard_sequence is a truthy non-array. -/
def c2badContent : List Char :=
  "\x7b\"data\":\x7b\"storyboard_sequence\":\"x\"\x7d\x7d".toList

/-- A minimal input without project_meta. -/
def c3Input : List Char := "\x7b\"storyboard_sequence\":[]\x7d".toList

/-- The document produced from c3Input. -/
def c3Doc : Json :=
  Json.obj [("storyboard_sequence", Json.arr []), ("project_meta", defaultMeta)]

/-- The default meta the specification text claims, with English
placeholder strings. -/
def englishMeta : Json :=
  Json.obj [("title", Json.str "Untitled Project"),
            ("logline", Json.str "No logline provided.")]

/-- Witness input for the defaulting theorem. -/
def c3wInput : List Char := "\x7b\"storyboard_sequence\":[\"w3\"]\x7d".toList

/-- The parsed value of c3wInput. -/
def c3wVal : Json := Json.obj [("storyboard_sequence", Json.arr [Json.str "w3"])]

/-- Well-formed JSON whose only sequence entry is a string of three
backticks. -/
def c4Input : List Char :=
  "\x7b\"storyboard_sequence\":[\"\x60\x60\x60\"]\x7d".toList

/-- The value JSON.parse would give for c4Input taken verbatim. -/
def c4InVal : Json :=
  Json.obj [("storyboard_sequence", Json.arr [Json.str "\x60\x60\x60"])]

/-- What the pipeline actually produces for c4Input: the backticks have
been deleted before parsing. -/
def c4Doc : Json :=
  Json.obj [("storyboard_sequence", Json.arr [Json.str ""]),
            ("project_meta", defaultMeta)]

/-- Witness input for the sequence-preservation theorem. -/
def c4wInput : List Char := "\x7b\"storyboard_sequence\":[\"s1\"]\x7d".toList

/-- The parsed value of c4wInput. -/
def c4wVal : Json := Json.obj [("storyboard_sequence", Json.arr [Json.str "s1"])]

/-- Well-formed JSON with a triple backtick inside a string field. -/
def c9Input : List Char :=
  "\x7b\"storyboard_sequence\":[\"a\x60\x60\x60b\"]\x7d".toList

/-- The text the pipeline hands to the JSON parser for c9Input. -/
def c9Stripped : List Char :=
  "\x7b\"storyboard_sequence\":[\"ab\"]\x7d".toList

/-- A restored document whose reference_image field is present but
empty (falsy). -/
def c10Doc : Json :=
  Json.obj [("storyboard_sequence", Json.arr []),
            ("reference_image", Json.str "")]

/-- A session holding a previous reference image. -/
def c10Prior : SessionState :=
  { emptySession with refImage := some (Json.str "old") }

/-- A session sitting in the output view with a document. -/
def c7Session : SessionState :=
  { emptySession with viewMode := ViewMode.outputView,
                      data := some (Json.obj []) }

/-- Text that is not JSON. -/
def c6BadInput : List Char := "not json".toList

/-- A backup file that fails to parse. -/
def c6BadBackup : List Char := "nope".toList

/-! ### List helper lemmas -/

theorem takeLenApp (a b : List Char) : (a ++ b).take a.length = a := by
  induction a with
  | nil => rfl
  | cons c t ih => simp [List.take_succ_cons, ih]

theorem dropLenApp (a b : List Char) : (a ++ b).drop a.length = b := by
  induction a with
  | nil => rfl
  | cons c t ih => simp [ih]

theorem takeAppLe (n : Nat) (a b : List Char) (h : n ≤ a.length) :
    (a ++ b).take n = a.take n := by
  induction a generalizing n with
  | nil =>
    have : n = 0 := Nat.le_zero.mp h
    subst this; rfl
  | cons c t ih =>
    cases n with
    | zero => rfl
    | succ m =>
      simp only [List.cons_append, List.take_succ_cons]
      rw [ih m (Nat.le_of_succ_le_succ h)]

theorem dropAppLe (n : Nat) (a b : List Char) (h : n ≤ a.length) :
    (a ++ b).drop n = a.drop n ++ b := by
  induction a generalizing n with
  | nil =>
    have : n = 0 := Nat.le_zero.mp h
    subst this; rfl
  | cons c t ih =>
    cases n with
    | zero => rfl
    | succ m =>
      simp only [List.cons_append, List.drop_succ_cons]
      exact ih m (Nat.le_of_succ_le_succ h)

theorem isPre_iff (p s : List Char) : isPre p s = true ↔ ∃ u, s = p ++ u := by
  induction p generalizing s with
  | nil => simp [isPre]
  | cons a as ih =>
    cases s with
    | nil => simp [isPre]
    | cons b bs =>
      by_cases hab : a = b
      · subst hab
        simp [isPre, ih]
      · simp only [isPre, if_neg hab, List.cons_append, List.cons.injEq]
        constructor
        · intro h; exact absurd h (by simp)
        · rintro ⟨u, hb, _⟩; exact absurd hb.symm hab

theorem isPre_append_self (p u : List Char) : isPre p (p ++ u) = true :=
  (isPre_iff p (p ++ u)).mpr ⟨u, rfl⟩

theorem isPre_mono (p s z : List Char) (h : isPre p s = true) :
    isPre p (s ++ z) = true := by
  obtain ⟨u, rfl⟩ := (isPre_iff p s).mp h
  rw [List.append_assoc]
  exact isPre_append_self p (u ++ z)

/-! ### Bridging lemmas between the pattern-matching deletion passes
and the boolean prefix test -/

theorem delJson_fence (rest : List Char) :
    delJson (fenceJson ++ rest) = delJson rest := rfl

theorem delJson_cons (c : Char) (rest : List Char)
    (h : isPre fenceJson (c :: rest) = false) :
    delJson (c :: rest) = c :: delJson rest := by
  rw [delJson.eq_def]
  split
  · rename_i r2 heq
    injection heq with h1 h2
    subst h1; subst h2
    simp [isPre, fenceJson] at h
  · rename_i heq
    injection heq with h1 h2
    subst h1; subst h2
    rfl
  · rename_i heq
    exact absurd heq (by simp)

theorem delTicks_fence (rest : List Char) :
    delTicks (fence3 ++ rest) = delTicks rest := rfl

theorem delTicks_cons (c : Char) (rest : List Char)
    (h : isPre fence3 (c :: rest) = false) :
    delTicks (c :: rest) = c :: delTicks rest := by
  rw [delTicks.eq_def]
  split
  · rename_i r2 heq
    injection heq with h1 h2
    subst h1; subst h2
    simp [isPre, fence3] at h
  · rename_i heq
    injection heq with h1 h2
    subst h1; subst h2
    rfl
  · rename_i heq
    exact absurd heq (by simp)

theorem hasFence_fence (rest : List Char) : hasFence (fence3 ++ rest) = true := rfl

theorem hasFence_cons (c : Char) (rest : List Char)
    (h : isPre fence3 (c :: rest) = false) :
    hasFence (c :: rest) = hasFence rest := by
  rw [hasFence.eq_def]
  split
  · rename_i r2 heq
    injection heq with h1 h2
    subst h1; subst h2
    simp [isPre, fence3] at h
  · rename_i heq
    injection heq with h1 h2
    subst h1; subst h2
    rfl
  · rename_i heq
    exact absurd heq (by simp)

theorem hasFence_of_pre (s : List Char) (h : isPre fence3 s = true) :
    hasFence s = true := by
  obtain ⟨u, rfl⟩ := (isPre_iff fence3 s).mp h
  exact hasFence_fence u

/-! ### The deletion passes against an appended closing fence -/

theorem delJson_no_span (c : Char) (rest : List Char)
    (h : isPre fenceJson ((c :: rest) ++ fence3) = true) :
    isPre fenceJson (c :: rest) = true := by
  obtain ⟨u, hu⟩ := (isPre_iff fenceJson ((c :: rest) ++ fence3)).mp h
  by_cases hlen : 7 ≤ (c :: rest).length
  · -- the match lies entirely inside the text
    have ht : (c :: rest).take 7 = fenceJson := by
      have h1 : ((c :: rest) ++ fence3).take 7 = (c :: rest).take 7 :=
        takeAppLe 7 (c :: rest) fence3 hlen
      have h2 : ((c :: rest) ++ fence3).take 7 = fenceJson := by
        rw [hu]
        exact takeLenApp fenceJson u
      rw [← h1, h2]
    apply (isPre_iff fenceJson (c :: rest)).mpr
    refine ⟨(c :: rest).drop 7, ?_⟩
    rw [← ht]
    exact (List.take_append_drop 7 (c :: rest)).symm
  · -- a spanning match is impossible: the json tail cannot match backticks
    exfalso
    have hlen2 : rest.length + 4 = 7 + u.length := by
      have hL := congrArg List.length hu
      rw [List.length_append, List.length_append] at hL
      have hf3 : fence3.length = 3 := rfl
      have hfj : fenceJson.length = 7 := rfl
      have hcr : (c :: rest).length = rest.length + 1 := List.length_cons c rest
      omega
    simp only [List.length_cons] at hlen
    have hd : fence3 = fenceJson.drop (c :: rest).length ++ u := by
      have h1 : ((c :: rest) ++ fence3).drop (c :: rest).length = fence3 :=
        dropLenApp (c :: rest) fence3
      have h2 : (fenceJson ++ u).drop (c :: rest).length =
          fenceJson.drop (c :: rest).length ++ u := by
        apply dropAppLe
        simp only [List.length_cons, fenceJson, List.length]
        omega
      rw [← h1, hu, h2]
    cases u with
    | nil =>
      have h4 : (c :: rest).length = 4 := by
        simp only [List.length_cons]
        simp only [List.length_nil] at hlen2
        omega
      rw [h4] at hd
      exact absurd hd (by decide)
    | cons a u1 =>
      cases u1 with
      | nil =>
        have h5 : (c :: rest).length = 5 := by
          simp only [List.length_cons]
          simp only [List.length_cons, List.length_nil] at hlen2
          omega
        rw [h5] at hd
        have hh : (some '\x60' : Option Char) = some 'o' := congrArg List.head? hd
        exact absurd hh (by decide)
      | cons b u2 =>
        cases u2 with
        | nil =>
          have h6 : (c :: rest).length = 6 := by
            simp only [List.length_cons]
            simp only [List.length_cons, List.length_nil] at hlen2
            omega
          rw [h6] at hd
          have hh : (some '\x60' : Option Char) = some 'n' := congrArg List.head? hd
          exact absurd hh (by decide)
        | cons x u3 =>
          simp only [List.length_cons] at hlen2
          omega

theorem delJson_app (t : List Char) :
    delJson (t ++ fence3) = delJson t ++ fence3 := by
  have H : ∀ n (t : List Char), t.length ≤ n →
      delJson (t ++ fence3) = delJson t ++ fence3 := by
    intro n
    induction n with
    | zero =>
      intro t ht
      have : t = [] := List.eq_nil_of_length_eq_zero (Nat.le_zero.mp ht)
      subst this
      rfl
    | succ n ih =>
      intro t ht
      by_cases hj : isPre fenceJson t = true
      · obtain ⟨u, rfl⟩ := (isPre_iff fenceJson t).mp hj
        rw [List.append_assoc, delJson_fence, delJson_fence]
        apply ih
        have := congrArg List.length (rfl : fenceJson ++ u = fenceJson ++ u)
        simp only [List.length_append] at ht ⊢
        simp [fenceJson] at ht
        omega
      · cases t with
        | nil => rfl
        | cons c rest =>
          have hsp : isPre fenceJson ((c :: rest) ++ fence3) = false := by
            cases hx : isPre fenceJson ((c :: rest) ++ fence3) with
            | false => rfl
            | true => exact absurd (delJson_no_span c rest hx) (by simp [hj])
          rw [List.cons_append, delJson_cons c (rest ++ fence3) (by
            rw [← List.cons_append]; exact hsp)]
          rw [delJson_cons c rest (by simp at hj; exact hj)]
          rw [List.cons_append]
          congr 1
          exact ih rest (Nat.le_of_succ_le_succ ht)
  exact H t.length t le_rfl

theorem delTicks_app (t : List Char) :
    delTicks (t ++ fence3) = delTicks t := by
  have H : ∀ n (t : List Char), t.length ≤ n →
      delTicks (t ++ fence3) = delTicks t := by
    intro n
    induction n with
    | zero =>
      intro t ht
      have : t = [] := List.eq_nil_of_length_eq_zero (Nat.le_zero.mp ht)
      subst this
      rfl
    | succ n ih =>
      intro t ht
      by_cases h3 : isPre fence3 t = true
      · obtain ⟨u, rfl⟩ := (isPre_iff fence3 t).mp h3
        rw [List.append_assoc, delTicks_fence, delTicks_fence]
        apply ih
        have hL : (fence3 ++ u).length = 3 + u.length := by
          rw [List.length_append]
          have h33 : fence3.length = 3 := rfl
          omega
        rw [hL] at ht
        omega
      · rw [Bool.not_eq_true] at h3
        cases t with
        | nil => rfl
        | cons c rest =>
          by_cases hsp : isPre fence3 ((c :: rest) ++ fence3) = true
          · -- the appended fence can only merge with at most two leading
            -- backticks; enumerate those concrete shapes
            obtain ⟨u, hu⟩ := (isPre_iff fence3 ((c :: rest) ++ fence3)).mp hsp
            cases rest with
            | nil =>
              simp only [List.cons_append, List.nil_append, fence3,
                List.cons.injEq] at hu
              obtain ⟨hc, _⟩ := hu
              subst hc
              decide
            | cons d rest1 =>
              cases rest1 with
              | nil =>
                simp only [List.cons_append, List.nil_append, fence3,
                  List.cons.injEq] at hu
                obtain ⟨hc, hd, _⟩ := hu
                subst hc; subst hd
                decide
              | cons e rest2 =>
                exfalso
                have hlen3 : 3 ≤ (c :: d :: e :: rest2).length := by
                  simp only [List.length_cons]
                  omega
                have htake : (c :: d :: e :: rest2).take 3 = fence3 := by
                  have h1 : ((c :: d :: e :: rest2) ++ fence3).take 3 =
                      (c :: d :: e :: rest2).take 3 :=
                    takeAppLe 3 _ _ hlen3
                  have h2 : ((c :: d :: e :: rest2) ++ fence3).take 3 =
                      fence3 := by
                    rw [hu]
                    exact takeLenApp fence3 u
                  rw [← h1, h2]
                have hpre : isPre fence3 (c :: d :: e :: rest2) = true := by
                  apply (isPre_iff _ _).mpr
                  refine ⟨(c :: d :: e :: rest2).drop 3, ?_⟩
                  rw [← htake]
                  exact (List.take_append_drop 3 _).symm
                rw [h3] at hpre
                exact Bool.false_ne_true hpre
          · rw [Bool.not_eq_true] at hsp
            rw [List.cons_append] at hsp ⊢
            rw [delTicks_cons c (rest ++ fence3) hsp]
            rw [delTicks_cons c rest h3]
            congr 1
            apply ih
            simp only [List.length_cons] at ht
            omega
  exact H t.length t le_rfl

theorem delJson_id_of_no_fence (t : List Char) (h : hasFence t = false) :
    delJson t = t := by
  induction t with
  | nil => rfl
  | cons c rest ih =>
    have hp3 : isPre fence3 (c :: rest) = false := by
      cases hx : isPre fence3 (c :: rest) with
      | false => rfl
      | true => rw [hasFence_of_pre _ hx] at h; exact absurd h (by simp)
    have hpj : isPre fenceJson (c :: rest) = false := by
      cases hx : isPre fenceJson (c :: rest) with
      | false => rfl
      | true =>
        obtain ⟨u, hu⟩ := (isPre_iff fenceJson (c :: rest)).mp hx
        have : isPre fence3 (c :: rest) = true := by
          apply (isPre_iff _ _).mpr
          exact ⟨['j', 's', 'o', 'n'] ++ u, by rw [hu]; rfl⟩
        rw [this] at hp3
        exact absurd hp3 (by simp)
    rw [hasFence_cons c rest hp3] at h
    rw [delJson_cons c rest hpj, ih h]

theorem delTicks_id_of_no_fence (t : List Char) (h : hasFence t = false) :
    delTicks t = t := by
  induction t with
  | nil => rfl
  | cons c rest ih =>
    have hp3 : isPre fence3 (c :: rest) = false := by
      cases hx : isPre fence3 (c :: rest) with
      | false => rfl
      | true => rw [hasFence_of_pre _ hx] at h; exact absurd h (by simp)
    rw [hasFence_cons c rest hp3] at h
    rw [delTicks_cons c rest hp3, ih h]

theorem stripFences_wrap (t : List Char) :
    stripFences (wrapFence t) = stripFences t := by
  have hw : hasFence (wrapFence t) = true := rfl
  unfold stripFences
  rw [if_pos hw]
  have hdj : delJson (wrapFence t) = delJson t ++ fence3 := by
    show delJson (fenceJson ++ (t ++ fence3)) = delJson t ++ fence3
    rw [delJson_fence, delJson_app]
  rw [hdj, delTicks_app]
  cases hft : hasFence t with
  | true => rw [if_pos rfl]
  | false =>
    rw [if_neg (by simp)]
    rw [delJson_id_of_no_fence t hft, delTicks_id_of_no_fence t hft]

/-! ### Object field lemmas -/

theorem lookupStr_objInsert_self (fs : List (String × Json)) (k : String)
    (x : Json) : lookupStr (objInsert fs k x) k = some x := by
  induction fs with
  | nil => simp [objInsert, lookupStr]
  | cons p t ih =>
    obtain ⟨k0, v0⟩ := p
    by_cases h : k0 = k
    · subst h
      simp [objInsert, lookupStr]
    · simp [objInsert, lookupStr, h, ih]

theorem lookupStr_objInsert_ne (fs : List (String × Json)) (k k' : String)
    (x : Json) (h : k' ≠ k) :
    lookupStr (objInsert fs k x) k' = lookupStr fs k' := by
  induction fs with
  | nil =>
    simp only [objInsert, lookupStr]
    rw [if_neg (fun e => h e.symm)]
  | cons p t ih =>
    obtain ⟨k0, v0⟩ := p
    by_cases h0 : k0 = k
    · subst h0
      simp only [objInsert, if_pos rfl, lookupStr]
      rw [if_neg (fun e => h e.symm), if_neg (fun e => h e.symm)]
    · simp only [objInsert, if_neg h0, lookupStr]
      by_cases h1 : k0 = k'
      · rw [if_pos h1, if_pos h1]
      · rw [if_neg h1, if_neg h1]
        exact ih

theorem getField_setField_self (fs : List (String × Json)) (k : String)
    (x : Json) : getField (setField (Json.obj fs) k x) k = some x := by
  simp [setField, getField, lookupStr_objInsert_self]

theorem getField_setField_ne (v : Json) (k k' : String) (x : Json)
    (h : k' ≠ k) : getField (setField v k x) k' = getField v k' := by
  cases v with
  | obj fs => exact lookupStr_objInsert_ne fs k k' x h
  | null => rfl
  | bool b => rfl
  | num n => rfl
  | str s => rfl
  | arr es => rfl

theorem getField_some_obj (v : Json) (k : String) (x : Json)
    (h : getField v k = some x) : ∃ fs, v = Json.obj fs := by
  cases v with
  | obj fs => exact ⟨fs, rfl⟩
  | null => exact absurd h (by simp [getField])
  | bool b => exact absurd h (by simp [getField])
  | num n => exact absurd h (by simp [getField])
  | str s => exact absurd h (by simp [getField])
  | arr es => exact absurd h (by simp [getField])

theorem getField_withDefaultMeta_ne (parsed : Json) (k : String)
    (h : k ≠ "project_meta") :
    getField (withDefaultMeta parsed) k = getField parsed k := by
  unfold withDefaultMeta
  by_cases hm : jsTruthyOpt (getField parsed "project_meta") = true
  · rw [if_pos hm]
  · rw [if_neg hm, getField_setField_ne _ _ _ _ h]

theorem getField_attachRef_ne (doc : Json) (r : Option Json) (k : String)
    (h : k ≠ "reference_image") :
    getField (attachRef doc r) k = getField doc k := by
  cases r with
  | none => rfl
  | some rr =>
    show getField (if jsTruthy rr then setField doc "reference_image" rr
                   else doc) k = getField doc k
    by_cases ht : jsTruthy rr = true
    · rw [if_pos ht, getField_setField_ne _ _ _ _ h]
    · rw [if_neg ht]

/-! ### Storage lemmas -/

theorem getItem_setItem_self (st : Storage) (k v : String) :
    getItem (setItem st k v) k = some v := by
  induction st with
  | nil => simp [setItem, getItem]
  | cons p t ih =>
    obtain ⟨k0, v0⟩ := p
    by_cases h : k0 = k
    · subst h
      simp [setItem, getItem]
    · simp [setItem, getItem, h, ih]

theorem getItem_removeItem_self (st : Storage) (k : String) :
    getItem (removeItem st k) k = none := by
  induction st with
  | nil => rfl
  | cons p t ih =>
    obtain ⟨k0, v0⟩ := p
    by_cases h : k0 = k
    · subst h
      simp [removeItem, ih]
    · simp [removeItem, getItem, h, ih]

/-! ### Claim theorems -/

/-- C1 (counterexample): updateImages does not merge.  Applying the
partial map with key 2 and then the partial map with key 5 to an empty
registry leaves a registry in which key 2 is absent, so the resulting
mapping does not contain both entries as the claim states. -/
theorem c1_merge_counterexample :
    getField (handleImagesUpdate (handleImagesUpdate emptySession
        (Json.obj [("2", Json.str "X")]))
        (Json.obj [("5", Json.str "Y")])).generatedImages "2" = none ∧
    getField (handleImagesUpdate (handleImagesUpdate emptySession
        (Json.obj [("2", Json.str "X")]))
        (Json.obj [("5", Json.str "Y")])).generatedImages "5"
      = some (Json.str "Y") ∧
    (none : Option Json) ≠ some (Json.str "X") := by
  refine ⟨rfl, rfl, ?_⟩
  intro h
  exact Option.noConfusion h

/-- C1 (amended): handleImagesUpdate and handleVideosUpdate replace
their registry wholesale with the supplied mapping (previously stored
entries whose index is not in the update are dropped); each update
touches only its own registry and leaves the document alone. -/
theorem c1_update_replaces_registry (s : SessionState) (m : Json) :
    (handleImagesUpdate s m).generatedImages = m ∧
    (handleVideosUpdate s m).videoUrls = m ∧
    (handleImagesUpdate s m).videoUrls = s.videoUrls ∧
    (handleVideosUpdate s m).generatedImages = s.generatedImages ∧
    (handleImagesUpdate s m).data = s.data ∧
    (handleVideosUpdate s m).data = s.data :=
  ⟨rfl, rfl, rfl, rfl, rfl, rfl⟩

/-- C2 (counterexample): a backup whose data.storyboard_sequence is a
truthy non-array (the string x) is accepted by the restore validation,
contradicting the claim that every non-array is rejected. -/
theorem c2_nonarray_accepted_counterexample :
    deserializeBackup c2badContent =
      some (Json.obj [("storyboard_sequence", Json.str "x")],
            Json.obj [], Json.obj []) ∧
    isArrOpt (getField (Json.obj [("storyboard_sequence", Json.str "x")])
      "storyboard_sequence") = false :=
  ⟨rfl, rfl⟩

/-- C2 (amended): restore succeeds exactly when the parsed backup has a
truthy data field whose storyboard_sequence property is truthy; no
array check is performed (absent or falsy fields are rejected, truthy
non-arrays are accepted). -/
theorem c2_restore_validation (content : List Char) (v : Json)
    (h : Json.parse content = some v) :
    (deserializeBackup content).isSome = true ↔
      ∃ d, getField v "data" = some d ∧ jsTruthy d = true ∧
        jsTruthyOpt (getField d "storyboard_sequence") = true := by
  have hrw : deserializeBackup content = backupStep2 v := by
    unfold deserializeBackup
    rw [h]
  rw [hrw]
  unfold backupStep2
  cases hd : getField v "data" with
  | none => simp
  | some d =>
    by_cases htd : jsTruthy d = true
    · by_cases hts : jsTruthyOpt (getField d "storyboard_sequence") = true
      · simp [htd, hts]
      · simp [htd, hts]
    · simp [htd]

/-- C2 amended witness at a concrete valid backup. -/
theorem c2_restore_validation_witness :
    (deserializeBackup c2okContent).isSome = true ↔
      ∃ d, getField c2okVal "data" = some d ∧ jsTruthy d = true ∧
        jsTruthyOpt (getField d "storyboard_sequence") = true :=
  c2_restore_validation c2okContent c2okVal rfl

/-- C3 (counterexample): parsing an input without project_meta succeeds,
but the synthesized default meta holds the Korean placeholder strings of
App.tsx lines 72-75, not the English pair the claim requires. -/
theorem c3_korean_default_counterexample :
    parsePipeline c3Input none = Except.ok c3Doc ∧
    getField c3Doc "project_meta" = some defaultMeta ∧
    defaultMeta ≠ englishMeta := by
  refine ⟨rfl, rfl, ?_⟩
  intro h
  have h2 : (some (Json.str "제목 없는 프로젝트") : Option Json) =
      some (Json.str "Untitled Project") :=
    congrArg (fun j => getField j "title") h
  injection h2 with h3
  injection h3 with h4
  exact absurd h4 (by decide)

/-- C3 (amended): for every input whose fence-stripped text parses to a
value with a storyboard_sequence array and no project_meta field, the
pipeline succeeds and the document's project_meta is exactly the default
with the Korean placeholder title and logline. -/
theorem c3_default_meta (input : List Char) (r : Option Json) (v : Json)
    (xs : List Json)
    (h1 : Json.parse (stripFences input) = some v)
    (h2 : getField v "storyboard_sequence" = some (Json.arr xs))
    (h3 : getField v "project_meta" = none) :
    ∃ d, parsePipeline input r = Except.ok d ∧
      getField d "project_meta" = some defaultMeta := by
  obtain ⟨fs, rfl⟩ := getField_some_obj _ _ _ h2
  have hrw : parsePipeline input r = pipelineStep2 (Json.obj fs) r := by
    unfold parsePipeline
    rw [h1]
  rw [hrw]
  unfold pipelineStep2
  have ha : isArrOpt (getField (Json.obj fs) "storyboard_sequence") = true := by
    rw [h2]
    rfl
  rw [if_pos ha]
  refine ⟨_, rfl, ?_⟩
  rw [getField_attachRef_ne _ _ _ (by decide)]
  unfold withDefaultMeta
  have hm : jsTruthyOpt (getField (Json.obj fs) "project_meta") = false := by
    rw [h3]
    rfl
  rw [hm, if_neg Bool.false_ne_true]
  exact getField_setField_self fs "project_meta" defaultMeta

/-- C3 amended witness at a concrete input. -/
theorem c3_default_meta_witness :
    ∃ d, parsePipeline c3wInput none = Except.ok d ∧
      getField d "project_meta" = some defaultMeta :=
  c3_default_meta c3wInput none c3wVal [Json.str "w3"] rfl rfl rfl

/-- C4 (counterexample): a well-formed JSON input whose only sequence
entry is a string of three backticks parses by itself to that entry, but
the pipeline strips the backticks before parsing and returns a document
whose sequence entry is the empty string, so length is preserved here
but the elements differ from the input array. -/
theorem c4_backticks_counterexample :
    Json.parse c4Input = some c4InVal ∧
    getField c4InVal "storyboard_sequence" =
      some (Json.arr [Json.str "\x60\x60\x60"]) ∧
    parsePipeline c4Input none = Except.ok c4Doc ∧
    getField c4Doc "storyboard_sequence" = some (Json.arr [Json.str ""]) ∧
    Json.str "" ≠ Json.str "\x60\x60\x60" := by
  refine ⟨rfl, rfl, rfl, rfl, ?_⟩
  intro h
  injection h with h1
  exact absurd h1 (by decide)

/-- C4 (amended): for every input that contains no triple backtick and
is well-formed JSON with a storyboard_sequence array, the pipeline
succeeds and the document's storyboardSequence is exactly the input
array (same length, same elements, same order). -/
theorem c4_sequence_preserved (input : List Char) (r : Option Json)
    (v : Json) (xs : List Json)
    (h0 : hasFence input = false)
    (h1 : Json.parse input = some v)
    (h2 : getField v "storyboard_sequence" = some (Json.arr xs)) :
    ∃ d, parsePipeline input r = Except.ok d ∧
      getField d "storyboard_sequence" = some (Json.arr xs) := by
  obtain ⟨fs, rfl⟩ := getField_some_obj _ _ _ h2
  have hsf : stripFences input = input := by
    unfold stripFences
    rw [if_neg (by simp [h0])]
  have hrw : parsePipeline input r = pipelineStep2 (Json.obj fs) r := by
    unfold parsePipeline
    rw [hsf, h1]
  rw [hrw]
  unfold pipelineStep2
  have ha : isArrOpt (getField (Json.obj fs) "storyboard_sequence") = true := by
    rw [h2]
    rfl
  rw [if_pos ha]
  refine ⟨_, rfl, ?_⟩
  rw [getField_attachRef_ne _ _ _ (by decide),
    getField_withDefaultMeta_ne _ _ (by decide)]
  exact h2

/-- C4 amended witness at a concrete input. -/
theorem c4_sequence_preserved_witness :
    ∃ d, parsePipeline c4wInput none = Except.ok d ∧
      getField d "storyboard_sequence" = some (Json.arr [Json.str "s1"]) :=
  c4_sequence_preserved c4wInput none c4wVal [Json.str "s1"] rfl rfl rfl

/-- C5 (confirmed): wrapping any text in a Markdown JSON fence (the
json fence opener before, a plain fence after) yields exactly the same
parse result as the unwrapped text: the pre-processing strips the
wrapper (and behaves identically on the interior), so the text handed
to the JSON parser is identical.  In particular this holds for every
text the parser accepts. -/
theorem c5_fence_wrap_transparent (t : List Char) (r : Option Json) :
    parsePipeline (wrapFence t) r = parsePipeline t r := by
  unfold parsePipeline
  rw [stripFences_wrap]

/-- C6 (confirmed): when the pipeline fails (syntax error or missing
sequence) handleVisualize leaves the document, view mode, both media
registries, the raw input and the reference image exactly as they were,
changing only the error and toast channels; when the backup is invalid
handleRestoreFile likewise changes only the toast channel. -/
theorem c6_failure_preserves_state (s : SessionState) (input : List Char)
    (r : Option Json) (content : List Char) :
    (∀ e, parsePipeline input r = Except.error e →
      ((handleVisualize s input r).data = s.data ∧
       (handleVisualize s input r).viewMode = s.viewMode ∧
       (handleVisualize s input r).generatedImages = s.generatedImages ∧
       (handleVisualize s input r).videoUrls = s.videoUrls ∧
       (handleVisualize s input r).jsonInput = s.jsonInput ∧
       (handleVisualize s input r).refImage = s.refImage)) ∧
    (deserializeBackup content = none →
      ((handleRestoreFile s content).data = s.data ∧
       (handleRestoreFile s content).viewMode = s.viewMode ∧
       (handleRestoreFile s content).generatedImages = s.generatedImages ∧
       (handleRestoreFile s content).videoUrls = s.videoUrls ∧
       (handleRestoreFile s content).jsonInput = s.jsonInput ∧
       (handleRestoreFile s content).refImage = s.refImage ∧
       (handleRestoreFile s content).error = s.error)) := by
  constructor
  · intro e he
    unfold handleVisualize
    rw [he]
    exact ⟨rfl, rfl, rfl, rfl, rfl, rfl⟩
  · intro hn
    unfold handleRestoreFile
    rw [hn]
    exact ⟨rfl, rfl, rfl, rfl, rfl, rfl, rfl⟩

/-- C6 witness at concrete failing inputs. -/
theorem c6_failure_preserves_state_witness :
    (handleVisualize emptySession c6BadInput none).data = emptySession.data ∧
    (handleRestoreFile emptySession c6BadBackup).data = emptySession.data :=
  ⟨((c6_failure_preserves_state emptySession c6BadInput none
      c6BadBackup).1 ParseErr.syntaxError rfl).1,
   ((c6_failure_preserves_state emptySession c6BadInput none
      c6BadBackup).2 rfl).1⟩

/-- C7 (confirmed): from the output view, reset followed by navigating
back to output restores a state identical to the original except that
the error slot is cleared; the view mode ends where it started, and
reset itself changes only the view mode and the error slot. -/
theorem c7_reset_round_trip (s : SessionState)
    (h1 : s.viewMode = ViewMode.outputView) (h2 : s.data.isSome = true) :
    goToOutput (handleReset s) =
      { s with viewMode := ViewMode.outputView, error := none } ∧
    (goToOutput (handleReset s)).viewMode = s.viewMode ∧
    handleReset s = { s with viewMode := ViewMode.inputView, error := none } := by
  have hgo : goToOutput (handleReset s) =
      { s with viewMode := ViewMode.outputView, error := none } := by
    have hd2 : (handleReset s).data.isSome = true := h2
    unfold goToOutput
    rw [if_pos hd2]
    rfl
  refine ⟨hgo, ?_, rfl⟩
  rw [hgo, h1]

/-- C7 witness at a concrete output-view session. -/
theorem c7_reset_round_trip_witness :
    goToOutput (handleReset c7Session) =
      { c7Session with viewMode := ViewMode.outputView, error := none } :=
  (c7_reset_round_trip c7Session rfl rfl).1

/-- C8 (confirmed): setting the credential stores it in session state;
the persisted entry under the fixed key is exactly the credential when
it is non-empty and is removed entirely when it is empty; and the
initial read yields the stored value, defaulting to the empty string
when the key is absent. -/
theorem c8_credential_persistence (s : SessionState) (st : Storage)
    (k : String) :
    (handleSetApiKey s st k).1.userApiKey = k ∧
    getItem (handleSetApiKey s st k).2 geminiKey =
      (if k = "" then none else some k) ∧
    (∀ st2 : Storage, initialApiKey st2 = (getItem st2 geminiKey).getD "") := by
  refine ⟨rfl, ?_, ?_⟩
  · show getItem (if k = "" then removeItem st geminiKey
        else setItem st geminiKey k) geminiKey =
      (if k = "" then none else some k)
    by_cases hk : k = ""
    · rw [if_pos hk, if_pos hk]
      exact getItem_removeItem_self st geminiKey
    · rw [if_neg hk, if_neg hk]
      exact getItem_setItem_self st geminiKey k
  · intro st2
    unfold initialApiKey
    cases h : getItem st2 geminiKey with
    | none => rfl
    | some v =>
      show (if v = "" then "" else v) = (some v).getD ""
      by_cases hv : v = ""
      · subst hv
        rfl
      · rw [if_neg hv]
        rfl

/-- C9 (confirmed): the fence pre-processing deletes backtick sequences
anywhere in the text, including inside JSON string values: this input is
well-formed JSON whose sequence entry contains a triple backtick, yet
the text handed to the JSON parser differs from the input (the backticks
inside the string literal are gone). -/
theorem c9_fences_stripped_inside_strings :
    Json.parse c9Input =
      some (Json.obj [("storyboard_sequence",
        Json.arr [Json.str "a\x60\x60\x60b"])]) ∧
    stripFences c9Input ≠ c9Input ∧
    stripFences c9Input = c9Stripped := by
  refine ⟨rfl, ?_, rfl⟩
  decide

/-- C10 (counterexample): a restored document whose reference_image
field is present but holds the empty string (falsy) does not overwrite
the reference-image slot: the prior image is kept, contradicting the
claim that presence alone suffices. -/
theorem c10_falsy_reference_counterexample :
    getField c10Doc "reference_image" = some (Json.str "") ∧
    (handleRestoreData c10Prior c10Doc (Json.obj [])
      (Json.obj [])).refImage = some (Json.str "old") ∧
    (some (Json.str "old") : Option Json) ≠ some (Json.str "") := by
  refine ⟨rfl, rfl, ?_⟩
  intro h
  injection h with h1
  injection h1 with h2
  exact absurd h2 (by decide)

/-- C10 (amended): on every successful restore the document and both
media registries are replaced together and the view switches to output;
the reference-image slot is overwritten exactly when the restored
document's reference_image field is present and truthy, and is left
unchanged when the field is absent or falsy; raw input, credential and
error slot are untouched. -/
theorem c10_restore_effects (s : SessionState) (d i v : Json) :
    (handleRestoreData s d i v).data = some d ∧
    (handleRestoreData s d i v).generatedImages = i ∧
    (handleRestoreData s d i v).videoUrls = v ∧
    (handleRestoreData s d i v).viewMode = ViewMode.outputView ∧
    (handleRestoreData s d i v).refImage =
      (match getField d "reference_image" with
       | some r => if jsTruthy r then some r else s.refImage
       | none => s.refImage) ∧
    (handleRestoreData s d i v).jsonInput = s.jsonInput ∧
    (handleRestoreData s d i v).userApiKey = s.userApiKey ∧
    (handleRestoreData s d i v).error = s.error := by
  exact ⟨rfl, rfl, rfl, rfl, rfl, rfl, rfl, rfl⟩
